import Mathlib

/-!
Verification development for the cmgen IBL preprocessing tool
(tools/cmgen/src/main.cpp and the Cubemap/CubemapUtils/CubemapIBL core it
drives).  The driver (command-line handling, aspect-ratio dispatch,
pipeline sequencing) is embedded directly from the source; the cubemap
core, whose code is not part of the visible sources, is modelled from the
specification where indicated.
-/

/-! ## Power-of-two test (utilities.h)

Modelled from the spec: the driver validates that sizes and dimensions are
powers of two via isPOT; the spec treats a non-power-of-two dimension as a
precondition violation.  We define the mathematical power-of-two test. -/

def isPOT (n : Nat) : Bool :=
  (List.range (n + 1)).any fun k => n == 2 ^ k

theorem isPOT_iff (n : Nat) : isPOT n = true ↔ ∃ k, n = 2 ^ k := by
  unfold isPOT
  rw [List.any_eq_true]
  constructor
  · rintro ⟨k, _, hk⟩
    exact ⟨k, by simpa using hk⟩
  · rintro ⟨k, hk⟩
    refine ⟨k, ?_, by simpa using hk⟩
    have : k < 2 ^ k := Nat.lt_two_pow k
    exact List.mem_range.mpr (by omega)

/-! ## Output image formats (ImageEncoder::Format, as used by the driver) -/

inductive CmdFormat
  | png
  | hdr
  | rgbm
  | exr
  | psd
  | ddsLinear
  deriving DecidableEq

/-- Option state mutated by handleCommandLineArgments (main.cpp lines
119-277).  numShBands is the local variable initialised to 3 at line 146;
formatSpecified is the local flag of lines 147 and 163-188; the remaining
fields are the globals the claims depend on.  outputSize is none while no
--size option has been accepted. -/
structure Options where
  format : CmdFormat
  formatSpecified : Bool
  numShBands : Int
  shCompute : Nat
  shOutput : Bool
  shIrradiance : Bool
  shShader : Bool
  outputSize : Option Nat
  deploy : Bool
  dfg : Bool
  deriving DecidableEq

/-- Initial option state on entry to handleCommandLineArgments.  The
initial format value is modelled as png; no claim depends on it. -/
def initOptions : Options :=
  { format := CmdFormat.png
    formatSpecified := false
    numShBands := 3
    shCompute := 0
    shOutput := false
    shIrradiance := false
    shShader := false
    outputSize := none
    deploy := false
    dfg := false }

/-- Command-line events as seen by the getopt loop.  Numeric arguments are
carried already parsed: size carries the stoul result (main.cpp line 193),
and sh carries the outcome of the stoi call of line 203, none when stoi
throws invalid_argument (the argument cannot be parsed as an integer). -/
inductive CmdArg
  | format (s : String)
  | size (n : Nat)
  | sh (r : Option Int)
  | shOutputFile
  | shIrradiance
  | shShader
  | deploy
  | iblDfg
  | other
  deriving DecidableEq

/-- Recognised --format arguments (main.cpp lines 163-188: six independent
string comparisons, each setting g_format and format_specified). -/
def recognizedFormat (s : String) : Option CmdFormat :=
  if s = "png" then some CmdFormat.png
  else if s = "hdr" then some CmdFormat.hdr
  else if s = "rgbm" then some CmdFormat.rgbm
  else if s = "exr" then some CmdFormat.exr
  else if s = "psd" then some CmdFormat.psd
  else if s = "dds" then some CmdFormat.ddsLinear
  else none

/-- Conversion of the int num_sh_bands to size_t g_sh_compute
(main.cpp line 274, a C size_t cast). -/
def intToSize (v : Int) : Nat :=
  (v % (2 ^ 64)).toNat

/-- One iteration of the getopt loop (main.cpp lines 148-267).  The size
case exits the process when the parsed value is not a power of two (lines
192-198), modelled as an error result; every other modelled case
continues. -/
def applyArg (st : Options) (a : CmdArg) : Except String Options :=
  match a with
  | CmdArg.format s =>
      match recognizedFormat s with
      | some f => Except.ok { st with format := f, formatSpecified := true }
      | none => Except.ok st
  | CmdArg.size n =>
      if isPOT n then Except.ok { st with outputSize := some n }
      else Except.error "output size must be a power of two"
  | CmdArg.sh r =>
      let st := { st with shCompute := 1, shOutput := true }
      match r with
      | some v => Except.ok { st with numShBands := v }
      | none => Except.ok st
  | CmdArg.shOutputFile =>
      Except.ok { st with shCompute := 1, shOutput := true }
  | CmdArg.shIrradiance =>
      Except.ok { st with shCompute := 1, shIrradiance := true }
  | CmdArg.shShader =>
      Except.ok { st with shCompute := 1, shIrradiance := true, shShader := true }
  | CmdArg.deploy =>
      Except.ok { st with deploy := true }
  | CmdArg.iblDfg =>
      Except.ok { st with dfg := true }
  | CmdArg.other =>
      Except.ok st

/-- The getopt loop folded over the argument list. -/
def parseLoop (st : Options) : List CmdArg → Except String Options
  | [] => Except.ok st
  | a :: rest =>
      match applyArg st a with
      | Except.ok st2 => parseLoop st2 rest
      | Except.error e => Except.error e

/-- First post-loop fixup of handleCommandLineArgments (main.cpp lines
269-271): deploy without an explicit format selects RGBM. -/
def deployFixup (st : Options) : Options :=
  if st.deploy && !st.formatSpecified then { st with format := CmdFormat.rgbm } else st

/-- Second post-loop fixup (main.cpp lines 273-275): a nonzero band count
with SH computation enabled transfers num_sh_bands into g_sh_compute. -/
def shBandsFixup (st : Options) : Options :=
  if st.numShBands ≠ 0 && st.shCompute ≠ 0 then
    { st with shCompute := intToSize st.numShBands }
  else st

/-- Post-loop fixups of handleCommandLineArgments (main.cpp lines
269-275). -/
def finishArgs (st : Options) : Options :=
  shBandsFixup (deployFixup st)

/-- handleCommandLineArgments (main.cpp lines 119-277): the getopt loop
from the initial option state followed by the post-loop fixups. -/
def handleCommandLineArgments (args : List CmdArg) : Except String Options :=
  (parseLoop initOptions args).map finishArgs

/-! ## Aspect-ratio dispatch (main.cpp lines 353-387) -/

inductive LayoutKind
  | cross
  | equirect
  | unsupported
  deriving DecidableEq

/-- Aspect-ratio detection of main.cpp lines 353-387: cross cubemap when
the width is a power of two with width*3 == height*4 or the height is a
power of two with height*3 == width*4; equirectangular when
width == 2*height; otherwise unsupported. -/
def detectLayout (w h : Nat) : LayoutKind :=
  if (isPOT w && w * 3 == h * 4) || (isPOT h && h * 3 == w * 4) then
    LayoutKind.cross
  else if w == 2 * h then
    LayoutKind.equirect
  else
    LayoutKind.unsupported

/-- Image dispatch of main.cpp lines 353-387: an unsupported aspect ratio
reports the ratio and exits (lines 380-387), modelled as an error; the two
projections are never invoked in that case. -/
def dispatchImage (w h : Nat) : Except String LayoutKind :=
  match detectLayout w h with
  | LayoutKind.unsupported => Except.error "Aspect ratio not supported"
  | k => Except.ok k

/-- Cross cubemap face dimension (main.cpp line 357). -/
def crossDim (w h : Nat) : Nat :=
  max w h / 4

/-- Cubemap base dimension used by the equirectangular and procedural
paths (main.cpp lines 370 and 393): the accepted --size value, 256 when
none was given. -/
def baseDim (sz : Option Nat) : Nat :=
  sz.getD 256

/-- Size of the generated DFG LUT (main.cpp line 291): the accepted --size
value, 128 when none was given. -/
def dfgLutSize (sz : Option Nat) : Nat :=
  sz.getD 128

/-! ## Parse-loop invariant helpers -/

theorem parseLoop_inv (G : CmdArg → Prop) (P : Options → Prop)
    (hstep : ∀ st a st2, G a → P st → applyArg st a = Except.ok st2 → P st2) :
    ∀ (args : List CmdArg) (st st2 : Options), (∀ a ∈ args, G a) → P st →
      parseLoop st args = Except.ok st2 → P st2 := by
  intro args
  induction args with
  | nil => intro st st2 _ hP h; simp [parseLoop] at h; rwa [← h]
  | cons a rest ih =>
      intro st st2 hG hP h
      unfold parseLoop at h
      cases hap : applyArg st a with
      | ok stm =>
          rw [hap] at h
          exact ih stm st2 (fun x hx => hG x (List.mem_cons_of_mem a hx))
            (hstep st a stm (hG a (List.mem_cons_self a rest)) hP hap) h
      | error e => rw [hap] at h; exact absurd h (by simp)

theorem parseLoop_after (P : Options → Prop)
    (hmono : ∀ st a st2, P st → applyArg st a = Except.ok st2 → P st2)
    (a0 : CmdArg) (hset : ∀ st st2, applyArg st a0 = Except.ok st2 → P st2) :
    ∀ (args : List CmdArg) (st st2 : Options), a0 ∈ args →
      parseLoop st args = Except.ok st2 → P st2 := by
  intro args
  induction args with
  | nil => intro st st2 hmem; exact absurd hmem (by simp)
  | cons a rest ih =>
      intro st st2 hmem h
      unfold parseLoop at h
      cases hap : applyArg st a with
      | ok stm =>
          rw [hap] at h
          rcases List.mem_cons.mp hmem with heq | hmem2
          · subst heq
            exact parseLoop_inv (fun _ => True) P
              (fun st a st2 _ => hmono st a st2) rest stm st2 (by simp)
              (hset st stm hap) h
          · exact ih stm st2 hmem2 h
      | error e => rw [hap] at h; exact absurd h (by simp)

theorem applyArg_ok_of_not_size (st : Options) (a : CmdArg)
    (ha : ∀ n, a ≠ CmdArg.size n) : ∃ st2, applyArg st a = Except.ok st2 := by
  have hne : ∀ e, applyArg st a ≠ Except.error e := by
    intro e
    cases a with
    | format s => cases hf : recognizedFormat s <;> simp [applyArg, hf]
    | size n => exact absurd rfl (ha n)
    | sh r => cases r <;> simp [applyArg]
    | shOutputFile => simp [applyArg]
    | shIrradiance => simp [applyArg]
    | shShader => simp [applyArg]
    | deploy => simp [applyArg]
    | iblDfg => simp [applyArg]
    | other => simp [applyArg]
  cases h : applyArg st a with
  | ok st2 => exact ⟨st2, rfl⟩
  | error e => exact absurd h (hne e)

theorem applyArg_outputSize_POT (st : Options) (a : CmdArg) (st2 : Options)
    (hP : ∀ n, st.outputSize = some n → isPOT n = true)
    (h : applyArg st a = Except.ok st2) :
    ∀ n, st2.outputSize = some n → isPOT n = true := by
  cases a with
  | format s =>
      cases hf : recognizedFormat s <;> simp [applyArg, hf] at h <;>
        subst h <;> simpa using hP
  | size n =>
      by_cases hp : isPOT n = true
      · simp [applyArg, hp] at h
        subst h
        intro m hm
        simp at hm
        rwa [← hm]
      · simp [applyArg, hp] at h
  | sh r => cases r <;> simp [applyArg] at h <;> subst h <;> simpa using hP
  | shOutputFile => simp [applyArg] at h; subst h; simpa using hP
  | shIrradiance => simp [applyArg] at h; subst h; simpa using hP
  | shShader => simp [applyArg] at h; subst h; simpa using hP
  | deploy => simp [applyArg] at h; subst h; simpa using hP
  | iblDfg => simp [applyArg] at h; subst h; simpa using hP
  | other => simp [applyArg] at h; subst h; simpa using hP

theorem applyArg_outputSize_eq (st : Options) (a : CmdArg) (st2 : Options)
    (ha : ∀ n, a ≠ CmdArg.size n) (h : applyArg st a = Except.ok st2) :
    st2.outputSize = st.outputSize := by
  cases a with
  | format s =>
      cases hf : recognizedFormat s <;> simp [applyArg, hf] at h <;> subst h <;> rfl
  | size n => exact absurd rfl (ha n)
  | sh r => cases r <;> simp [applyArg] at h <;> subst h <;> rfl
  | shOutputFile => simp [applyArg] at h; subst h; rfl
  | shIrradiance => simp [applyArg] at h; subst h; rfl
  | shShader => simp [applyArg] at h; subst h; rfl
  | deploy => simp [applyArg] at h; subst h; rfl
  | iblDfg => simp [applyArg] at h; subst h; rfl
  | other => simp [applyArg] at h; subst h; rfl

theorem applyArg_numShBands_eq (st : Options) (a : CmdArg) (st2 : Options)
    (ha : ∀ v, a ≠ CmdArg.sh (some v)) (h : applyArg st a = Except.ok st2) :
    st2.numShBands = st.numShBands := by
  cases a with
  | format s =>
      cases hf : recognizedFormat s <;> simp [applyArg, hf] at h <;> subst h <;> rfl
  | size n =>
      by_cases hp : isPOT n = true
      · simp [applyArg, hp] at h; subst h; rfl
      · simp [applyArg, hp] at h
  | sh r =>
      cases r with
      | none => simp [applyArg] at h; subst h; rfl
      | some v => exact absurd rfl (ha v)
  | shOutputFile => simp [applyArg] at h; subst h; rfl
  | shIrradiance => simp [applyArg] at h; subst h; rfl
  | shShader => simp [applyArg] at h; subst h; rfl
  | deploy => simp [applyArg] at h; subst h; rfl
  | iblDfg => simp [applyArg] at h; subst h; rfl
  | other => simp [applyArg] at h; subst h; rfl

theorem applyArg_mono (st : Options) (a : CmdArg) (st2 : Options)
    (h : applyArg st a = Except.ok st2) :
    (st.shCompute ≠ 0 → st2.shCompute ≠ 0) ∧
    (st.shOutput = true → st2.shOutput = true) ∧
    (st.deploy = true → st2.deploy = true) ∧
    (st.dfg = true → st2.dfg = true) ∧
    (st.formatSpecified = true → st2.formatSpecified = true) := by
  cases a with
  | format s =>
      cases hf : recognizedFormat s <;> simp [applyArg, hf] at h <;> subst h <;>
        simp
  | size n =>
      by_cases hp : isPOT n = true
      · simp [applyArg, hp] at h; subst h; simp
      · simp [applyArg, hp] at h
  | sh r => cases r <;> simp [applyArg] at h <;> subst h <;> simp
  | shOutputFile => simp [applyArg] at h; subst h; simp
  | shIrradiance => simp [applyArg] at h; subst h; simp
  | shShader => simp [applyArg] at h; subst h; simp
  | deploy => simp [applyArg] at h; subst h; simp
  | iblDfg => simp [applyArg] at h; subst h; simp
  | other => simp [applyArg] at h; subst h; simp

theorem applyArg_formatSpecified_false (st : Options) (a : CmdArg) (st2 : Options)
    (ha : ∀ s, a = CmdArg.format s → recognizedFormat s = none)
    (hP : st.formatSpecified = false) (h : applyArg st a = Except.ok st2) :
    st2.formatSpecified = false := by
  cases a with
  | format s =>
      have hf : recognizedFormat s = none := ha s rfl
      simp [applyArg, hf] at h; subst h; exact hP
  | size n =>
      by_cases hp : isPOT n = true
      · simp [applyArg, hp] at h; subst h; exact hP
      · simp [applyArg, hp] at h
  | sh r => cases r <;> simp [applyArg] at h <;> subst h <;> exact hP
  | shOutputFile => simp [applyArg] at h; subst h; exact hP
  | shIrradiance => simp [applyArg] at h; subst h; exact hP
  | shShader => simp [applyArg] at h; subst h; exact hP
  | deploy => simp [applyArg] at h; subst h; exact hP
  | iblDfg => simp [applyArg] at h; subst h; exact hP
  | other => simp [applyArg] at h; subst h; exact hP

theorem applyArg_sh_none_sets (st st2 : Options)
    (h : applyArg st (CmdArg.sh none) = Except.ok st2) :
    st2.shCompute ≠ 0 ∧ st2.shOutput = true := by
  simp [applyArg] at h; subst h; simp

theorem applyArg_deploy_sets (st st2 : Options)
    (h : applyArg st CmdArg.deploy = Except.ok st2) : st2.deploy = true := by
  simp [applyArg] at h; subst h; rfl

theorem applyArg_iblDfg_sets (st st2 : Options)
    (h : applyArg st CmdArg.iblDfg = Except.ok st2) : st2.dfg = true := by
  simp [applyArg] at h; subst h; rfl

theorem applyArg_format_sets (st st2 : Options) (s : String) (f : CmdFormat)
    (hf : recognizedFormat s = some f)
    (h : applyArg st (CmdArg.format s) = Except.ok st2) :
    st2.formatSpecified = true := by
  simp [applyArg, hf] at h; subst h; rfl

theorem finishArgs_outputSize (st : Options) :
    (finishArgs st).outputSize = st.outputSize := by
  unfold finishArgs shBandsFixup deployFixup
  split <;> split <;> rfl

theorem finishArgs_dfg (st : Options) : (finishArgs st).dfg = st.dfg := by
  unfold finishArgs shBandsFixup deployFixup
  split <;> split <;> rfl

theorem parseLoop_error_badsize :
    ∀ (args : List CmdArg) (st : Options) (n : Nat), isPOT n = false →
      CmdArg.size n ∈ args →
      parseLoop st args = Except.error "output size must be a power of two" := by
  intro args
  induction args with
  | nil => intro st n _ hmem; exact absurd hmem (by simp)
  | cons a rest ih =>
      intro st n hn hmem
      unfold parseLoop
      by_cases hsz : ∃ m, a = CmdArg.size m
      · obtain ⟨m, rfl⟩ := hsz
        by_cases hm : isPOT m = true
        · rw [show applyArg st (CmdArg.size m) =
              Except.ok { st with outputSize := some m } from by simp [applyArg, hm]]
          rcases List.mem_cons.mp hmem with heq | hmem2
          · injection heq with h1
            subst h1
            rw [hm] at hn
            exact absurd hn (by simp)
          · exact ih _ n hn hmem2
        · have hm2 : isPOT m = false := by simpa using hm
          simp [applyArg, hm2]
      · have hna : ∀ m, a ≠ CmdArg.size m := by
          intro m hcon; exact hsz ⟨m, hcon⟩
        obtain ⟨st2, hok⟩ := applyArg_ok_of_not_size st a hna
        rw [hok]
        rcases List.mem_cons.mp hmem with heq | hmem2
        · exact absurd heq.symm (hna n)
        · exact ih st2 n hn hmem2

theorem crossDim_POT (w h : Nat)
    (hc : (isPOT w = true ∧ w * 3 = h * 4) ∨ (isPOT h = true ∧ h * 3 = w * 4)) :
    isPOT (crossDim w h) = true := by
  rcases hc with ⟨hp, he⟩ | ⟨hp, he⟩
  · obtain ⟨k, rfl⟩ := (isPOT_iff _).mp hp
    rcases k with _ | _ | m
    · norm_num at he
      omega
    · norm_num at he
      omega
    · have hw : 2 ^ (m + 2) = 4 * 2 ^ m := by ring
      rw [hw] at he ⊢
      have hh : h = 3 * 2 ^ m := by omega
      subst hh
      unfold crossDim
      rw [max_eq_left (by omega)]
      rw [show 4 * 2 ^ m / 4 = 2 ^ m from by omega]
      exact (isPOT_iff _).mpr ⟨m, rfl⟩
  · obtain ⟨k, rfl⟩ := (isPOT_iff _).mp hp
    rcases k with _ | _ | m
    · norm_num at he
      omega
    · norm_num at he
      omega
    · have hw : 2 ^ (m + 2) = 4 * 2 ^ m := by ring
      rw [hw] at he ⊢
      have hh : w = 3 * 2 ^ m := by omega
      subst hh
      unfold crossDim
      rw [max_eq_right (by omega)]
      rw [show 4 * 2 ^ m / 4 = 2 ^ m from by omega]
      exact (isPOT_iff _).mpr ⟨m, rfl⟩

theorem deployFixup_fields (st : Options) :
    (deployFixup st).numShBands = st.numShBands ∧
    (deployFixup st).shCompute = st.shCompute ∧
    (deployFixup st).shOutput = st.shOutput := by
  unfold deployFixup
  split <;> exact ⟨rfl, rfl, rfl⟩

theorem finishArgs_sh (st : Options) (hb : st.numShBands = 3)
    (hc : st.shCompute ≠ 0) :
    (finishArgs st).shCompute = 3 ∧ (finishArgs st).shOutput = st.shOutput := by
  obtain ⟨h1, h2, h3⟩ := deployFixup_fields st
  unfold finishArgs shBandsFixup
  rw [if_pos (by simp [h1, h2, hb, hc])]
  constructor
  · show intToSize (deployFixup st).numShBands = 3
    rw [h1, hb]
    rfl
  · exact h3

theorem finishArgs_format_rgbm (st : Options) (hd : st.deploy = true)
    (hf : st.formatSpecified = false) :
    (finishArgs st).format = CmdFormat.rgbm := by
  unfold finishArgs shBandsFixup deployFixup
  rw [if_pos (show (st.deploy && !st.formatSpecified) = true from by simp [hd, hf])]
  split <;> rfl

theorem finishArgs_format_keep (st : Options) (hf : st.formatSpecified = true) :
    (finishArgs st).format = st.format := by
  unfold finishArgs shBandsFixup deployFixup
  rw [if_neg (show ¬(st.deploy && !st.formatSpecified) = true from by simp [hf])]
  split <;> rfl

/-! ## Claim theorems for the command-line layer -/

/-- C7: when a --size argument parses to a value that is not a power of
two, handleCommandLineArgments reports the violation and terminates with
an error before any output is produced; moreover every cubemap base
dimension the driver can create is a power of two: the cross-path
dimension max(w,h)/4 under the cross aspect conditions, and the
equirectangular or procedural base dimension derived from the validated
size state (256 when no size was given). -/
theorem size_pot_validation :
    (∀ (args : List CmdArg) (n : Nat), isPOT n = false → CmdArg.size n ∈ args →
        handleCommandLineArgments args =
          Except.error "output size must be a power of two") ∧
    (∀ w h : Nat,
        ((isPOT w = true ∧ w * 3 = h * 4) ∨ (isPOT h = true ∧ h * 3 = w * 4)) →
        isPOT (crossDim w h) = true) ∧
    (∀ (args : List CmdArg) (st : Options),
        handleCommandLineArgments args = Except.ok st →
        (∀ n, st.outputSize = some n → isPOT n = true) ∧
        isPOT (baseDim st.outputSize) = true) := by
  refine ⟨?_, crossDim_POT, ?_⟩
  · intro args n hn hmem
    unfold handleCommandLineArgments
    rw [parseLoop_error_badsize args initOptions n hn hmem]
    rfl
  · intro args st h
    unfold handleCommandLineArgments at h
    cases hpl : parseLoop initOptions args with
    | error e => rw [hpl] at h; exact absurd h (by simp [Except.map])
    | ok st1 =>
        rw [hpl] at h
        simp [Except.map] at h
        subst h
        have hPOT : ∀ n, st1.outputSize = some n → isPOT n = true :=
          parseLoop_inv (fun _ => True) (fun st => ∀ n, st.outputSize = some n → isPOT n = true)
            (fun st a st2 _ hP hap => applyArg_outputSize_POT st a st2 hP hap)
            args initOptions st1 (by simp) (by intro n hcon; simp [initOptions] at hcon) hpl
        rw [finishArgs_outputSize]
        refine ⟨hPOT, ?_⟩
        cases hos : st1.outputSize with
        | none => exact (isPOT_iff _).mpr ⟨8, by norm_num [baseDim]⟩
        | some n =>
            have := hPOT n hos
            simpa [baseDim] using this

/-- Witness for C7 at concrete inputs: size 3 is rejected, and the
4x3-cross dimensions 8x6 give a power-of-two face size. -/
theorem size_pot_validation_witness :
    handleCommandLineArgments [CmdArg.size 3] =
        Except.error "output size must be a power of two" ∧
      isPOT (crossDim 8 6) = true := by
  constructor
  · exact size_pot_validation.1 [CmdArg.size 3] 3 (by decide) (by simp)
  · exact size_pot_validation.2.1 8 6 (Or.inl ⟨by decide, by decide⟩)

/-- C8: when every --sh occurrence carries an argument that stoi cannot
parse as an integer, SH computation is still enabled and the band count
stays at the prior default of 3: the final g_sh_compute is 3 and
g_sh_output is set. -/
theorem sh_unparsable_keeps_default (args : List CmdArg) (st : Options)
    (hall : ∀ r, CmdArg.sh r ∈ args → r = none)
    (hmem : CmdArg.sh none ∈ args)
    (h : handleCommandLineArgments args = Except.ok st) :
    st.shCompute = 3 ∧ st.shOutput = true := by
  unfold handleCommandLineArgments at h
  cases hpl : parseLoop initOptions args with
  | error e => rw [hpl] at h; exact absurd h (by simp [Except.map])
  | ok st1 =>
      rw [hpl] at h
      simp [Except.map] at h
      subst h
      have hbands : st1.numShBands = 3 := by
        have := parseLoop_inv (fun a => ∀ v, a ≠ CmdArg.sh (some v))
          (fun st => st.numShBands = 3)
          (fun st a st2 hG hP hap => by
            show st2.numShBands = 3
            rw [applyArg_numShBands_eq st a st2 hG hap]; exact hP)
          args initOptions st1 ?_ rfl hpl
        · exact this
        · intro a ha v hcon
          subst hcon
          exact absurd (hall (some v) ha) (by simp)
      have hsc : st1.shCompute ≠ 0 ∧ st1.shOutput = true := by
        exact parseLoop_after (fun st => st.shCompute ≠ 0 ∧ st.shOutput = true)
          (fun st a st2 hP hap =>
            ⟨(applyArg_mono st a st2 hap).1 hP.1,
             (applyArg_mono st a st2 hap).2.1 hP.2⟩)
          (CmdArg.sh none) applyArg_sh_none_sets args initOptions st1 hmem hpl
      obtain ⟨h1, h2⟩ := finishArgs_sh st1 hbands hsc.1
      exact ⟨h1, h2.trans hsc.2⟩

/-- Witness for C8: a single --sh whose argument failed to parse yields
band count 3 with SH output enabled. -/
theorem sh_unparsable_keeps_default_witness :
    ({ initOptions with shCompute := 3, shOutput := true } : Options).shCompute = 3 ∧
    ({ initOptions with shCompute := 3, shOutput := true } : Options).shOutput = true :=
  sh_unparsable_keeps_default [CmdArg.sh none] _
    (by intro r hr; simpa using List.mem_singleton.mp hr)
    (List.mem_singleton.mpr rfl) (by rfl)

/-- C9: an invocation with --ibl-dfg and no --size option leaves the size
state unset, so the DFG LUT is generated at size 128 while the cubemap
default dimension of the same run is 256; the two defaults differ. -/
theorem dfg_default_sizes (args : List CmdArg) (st : Options)
    (hnosize : ∀ n, CmdArg.size n ∉ args)
    (hdfg : CmdArg.iblDfg ∈ args)
    (h : handleCommandLineArgments args = Except.ok st) :
    st.dfg = true ∧ st.outputSize = none ∧
      dfgLutSize st.outputSize = 128 ∧ baseDim st.outputSize = 256 ∧
      dfgLutSize st.outputSize ≠ baseDim st.outputSize := by
  unfold handleCommandLineArgments at h
  cases hpl : parseLoop initOptions args with
  | error e => rw [hpl] at h; exact absurd h (by simp [Except.map])
  | ok st1 =>
      rw [hpl] at h
      simp [Except.map] at h
      subst h
      have hsize : st1.outputSize = none := by
        exact parseLoop_inv (fun a => ∀ n, a ≠ CmdArg.size n)
          (fun st => st.outputSize = none)
          (fun st a st2 hG hP hap => by
            show st2.outputSize = none
            rw [applyArg_outputSize_eq st a st2 hG hap]; exact hP)
          args initOptions st1
          (fun a ha n hcon => hnosize n (hcon ▸ ha)) rfl hpl
      have hdfg1 : st1.dfg = true := by
        exact parseLoop_after (fun st => st.dfg = true)
          (fun st a st2 hP hap => (applyArg_mono st a st2 hap).2.2.2.1 hP)
          CmdArg.iblDfg applyArg_iblDfg_sets args initOptions st1 hdfg hpl
      rw [finishArgs_outputSize, finishArgs_dfg, hsize]
      exact ⟨hdfg1, rfl, rfl, rfl, by decide⟩

/-- Witness for C9 on the one-option invocation with only --ibl-dfg. -/
theorem dfg_default_sizes_witness :
    ({ initOptions with dfg := true } : Options).dfg = true ∧
    ({ initOptions with dfg := true } : Options).outputSize = none ∧
    dfgLutSize ({ initOptions with dfg := true } : Options).outputSize = 128 ∧
    baseDim ({ initOptions with dfg := true } : Options).outputSize = 256 ∧
    dfgLutSize ({ initOptions with dfg := true } : Options).outputSize ≠
      baseDim ({ initOptions with dfg := true } : Options).outputSize :=
  dfg_default_sizes [CmdArg.iblDfg] _
    (by intro n hn; simpa using List.mem_singleton.mp hn)
    (List.mem_singleton.mpr rfl) (by rfl)

/-- C10: with --deploy and no recognised --format option the final output
format is RGBM, and whenever a recognised --format option was given the
post-loop deploy fixup leaves the format chosen by the loop unchanged. -/
theorem deploy_format_default :
    (∀ (args : List CmdArg) (st : Options),
        CmdArg.deploy ∈ args →
        (∀ s, CmdArg.format s ∈ args → recognizedFormat s = none) →
        handleCommandLineArgments args = Except.ok st →
        st.format = CmdFormat.rgbm) ∧
    (∀ (args : List CmdArg) (st1 : Options) (s : String) (f : CmdFormat),
        recognizedFormat s = some f → CmdArg.format s ∈ args →
        parseLoop initOptions args = Except.ok st1 →
        (finishArgs st1).format = st1.format) := by
  constructor
  · intro args st hdep hnofmt h
    unfold handleCommandLineArgments at h
    cases hpl : parseLoop initOptions args with
    | error e => rw [hpl] at h; exact absurd h (by simp [Except.map])
    | ok st1 =>
        rw [hpl] at h
        simp [Except.map] at h
        subst h
        have hfs : st1.formatSpecified = false := by
          exact parseLoop_inv (fun a => ∀ s, a = CmdArg.format s → recognizedFormat s = none)
            (fun st => st.formatSpecified = false)
            (fun st a st2 hG hP hap => applyArg_formatSpecified_false st a st2 hG hP hap)
            args initOptions st1
            (fun a ha s hcon => hnofmt s (hcon ▸ ha)) rfl hpl
        have hdep1 : st1.deploy = true := by
          exact parseLoop_after (fun st => st.deploy = true)
            (fun st a st2 hP hap => (applyArg_mono st a st2 hap).2.2.1 hP)
            CmdArg.deploy applyArg_deploy_sets args initOptions st1 hdep hpl
        exact finishArgs_format_rgbm st1 hdep1 hfs
  · intro args st1 s f hf hmem hpl
    have hfs : st1.formatSpecified = true := by
      exact parseLoop_after (fun st => st.formatSpecified = true)
        (fun st a st2 hP hap => (applyArg_mono st a st2 hap).2.2.2.2 hP)
        (CmdArg.format s) (fun st st2 h => applyArg_format_sets st st2 s f hf h)
        args initOptions st1 hmem hpl
    exact finishArgs_format_keep st1 hfs

/-- Witness for C10: deploy alone selects RGBM, and with an explicit
format the fixup is the identity on the format field. -/
theorem deploy_format_default_witness :
    ({ initOptions with deploy := true, format := CmdFormat.rgbm } : Options).format =
        CmdFormat.rgbm ∧
      (finishArgs { initOptions with format := CmdFormat.exr, formatSpecified := true }).format =
        ({ initOptions with format := CmdFormat.exr, formatSpecified := true } : Options).format := by
  constructor
  · exact deploy_format_default.1 [CmdArg.deploy] _
      (List.mem_singleton.mpr rfl)
      (by intro s hs; simp at hs) (by rfl)
  · exact deploy_format_default.2 [CmdArg.format "exr"] _ "exr" CmdFormat.exr
      (by rfl) (List.mem_singleton.mpr rfl) (by rfl)

/-- C5: for a decoded image of positive dimensions the driver treats it as
a cross cubemap exactly when the width is a power of two with
width*3 == height*4 or the height is a power of two with
height*3 == width*4, as equirectangular exactly when width == 2*height,
and otherwise exactly when neither holds it reports the unsupported
aspect ratio and terminates without invoking any projection. -/
theorem aspect_ratio_dispatch (w h : Nat) (hw : 0 < w) (hh : 0 < h) :
    (detectLayout w h = LayoutKind.cross ↔
      ((isPOT w = true ∧ w * 3 = h * 4) ∨ (isPOT h = true ∧ h * 3 = w * 4))) ∧
    (detectLayout w h = LayoutKind.equirect ↔ w = 2 * h) ∧
    (detectLayout w h = LayoutKind.unsupported ↔
      (¬((isPOT w = true ∧ w * 3 = h * 4) ∨ (isPOT h = true ∧ h * 3 = w * 4)) ∧
        ¬(w = 2 * h))) ∧
    (detectLayout w h = LayoutKind.unsupported →
      dispatchImage w h = Except.error "Aspect ratio not supported") := by
  have hC : ((isPOT w && w * 3 == h * 4) || (isPOT h && h * 3 == w * 4)) = true ↔
      ((isPOT w = true ∧ w * 3 = h * 4) ∨ (isPOT h = true ∧ h * 3 = w * 4)) := by
    simp
  by_cases hc : ((isPOT w && w * 3 == h * 4) || (isPOT h && h * 3 == w * 4)) = true
  · have hcp := hC.mp hc
    have hne : ¬ (w = 2 * h) := by
      rcases hcp with ⟨_, he⟩ | ⟨_, he⟩ <;> omega
    have hd : detectLayout w h = LayoutKind.cross := by
      unfold detectLayout
      rw [if_pos hc]
    rw [hd]
    refine ⟨by simp [hcp], by simp [hne], by simp [hcp], by simp⟩
  · have hcp : ¬((isPOT w = true ∧ w * 3 = h * 4) ∨ (isPOT h = true ∧ h * 3 = w * 4)) :=
      fun hx => hc (hC.mpr hx)
    by_cases he : (w == 2 * h) = true
    · have hep : w = 2 * h := by simpa using he
      have hd : detectLayout w h = LayoutKind.equirect := by
        unfold detectLayout
        rw [if_neg (by simpa using hc), if_pos he]
      rw [hd]
      refine ⟨by simp [hcp], by simp [hep], by simp [hep], by simp⟩
    · have hep : ¬ (w = 2 * h) := by simpa using he
      have hd : detectLayout w h = LayoutKind.unsupported := by
        unfold detectLayout
        rw [if_neg (by simpa using hc), if_neg (by simpa using he)]
      rw [hd]
      refine ⟨by simp [hcp], by simp [hep], by simp [hcp, hep], ?_⟩
      intro _
      unfold dispatchImage
      rw [hd]

/-- Witness for C5 at the cross input 8x6. -/
theorem aspect_ratio_dispatch_witness :
    detectLayout 8 6 = LayoutKind.cross ↔
      ((isPOT 8 = true ∧ 8 * 3 = 6 * 4) ∨ (isPOT 6 = true ∧ 6 * 3 = 8 * 4)) :=
  (aspect_ratio_dispatch 8 6 (by decide) (by decide)).1

/-! ## Cubemap model

Modelled from the spec: the Cubemap class itself (six square faces viewing
a backing Image, power-of-two dimension) is not among the visible sources;
only its driver is.  Texel values are kept polymorphic. -/

/-- Modelled from the spec: a Cubemap is six logical faces, each face a
square grid of texels of side dim. -/
structure Cubemap (α : Type) where
  dim : Nat
  texel : Fin 6 → Nat → Nat → α

/-- Constant cubemap: every texel of every face holds the value v. -/
def constCubemap (α : Type) (d : Nat) (v : α) : Cubemap α :=
  { dim := d, texel := fun _ _ _ => v }

/-- Border-ring test: the texel (i, j) of a face of dimension d lies on
the one-texel border ring. -/
def isBorder (d i j : Nat) : Bool :=
  i == 0 || j == 0 || i == d - 1 || j == d - 1

/-- Interior position of a face of dimension d: strictly inside the
border ring. -/
def isInterior (d i j : Nat) : Prop :=
  0 < i ∧ i < d - 1 ∧ 0 < j ∧ j < d - 1

theorem isInterior_not_border (d i j : Nat) (h : isInterior d i j) :
    isBorder d i j = false := by
  obtain ⟨h1, h2, h3, h4⟩ := h
  simp [isBorder]
  omega

/-- Modelled from the spec: the face-rotation-aware index permutation that
makeSeamless uses.  nbr sends each border texel of each face to the
corresponding interior-adjacent texel of the neighbouring face; the spec
leaves the concrete permutation table and the deterministic corner pick
open, so the table is a parameter constrained to target interior texels
whenever the dimension is large enough to have an interior. -/
structure SeamGeometry (d : Nat) where
  nbr : Fin 6 → Nat → Nat → Fin 6 × Nat × Nat
  nbr_interior : ∀ f i j, i < d → j < d → isBorder d i j = true → 3 ≤ d →
    isInterior d (nbr f i j).2.1 (nbr f i j).2.2

/-- Simple seam geometry sending every border texel to the interior texel
(1, 1) of face 0; used to instantiate the parametric model on concrete
inputs. -/
def sampleGeom (d : Nat) : SeamGeometry d where
  nbr := fun _ _ _ => (0, 1, 1)
  nbr_interior := fun _ _ _ _ _ _ h3 => by
    show isInterior d 1 1
    exact ⟨by omega, by omega, by omega, by omega⟩

/-- Modelled from the spec: Cubemap::makeSeamless rewrites the one-texel
border ring of every face with the value of the corresponding
interior-adjacent texel of the neighbouring face, as given by the seam
geometry; interior texels are not touched. -/
def makeSeamless {α : Type} (geom : (d : Nat) → SeamGeometry d) (c : Cubemap α) :
    Cubemap α :=
  { dim := c.dim
    texel := fun f i j =>
      if isBorder c.dim i j then
        c.texel ((geom c.dim).nbr f i j).1 ((geom c.dim).nbr f i j).2.1
          ((geom c.dim).nbr f i j).2.2
      else c.texel f i j }

/-- Seam-consistency invariant: every border texel of every face equals
the corresponding interior-adjacent texel of the neighbouring face,
whenever the dimension is large enough to have an interior. -/
def Seamless {α : Type} (geom : (d : Nat) → SeamGeometry d) (c : Cubemap α) : Prop :=
  ∀ f i j, i < c.dim → j < c.dim → isBorder c.dim i j = true → 3 ≤ c.dim →
    c.texel f i j =
      c.texel ((geom c.dim).nbr f i j).1 ((geom c.dim).nbr f i j).2.1
        ((geom c.dim).nbr f i j).2.2

theorem makeSeamless_dim {α : Type} (geom : (d : Nat) → SeamGeometry d)
    (c : Cubemap α) : (makeSeamless geom c).dim = c.dim := rfl

theorem makeSeamless_seamless {α : Type} (geom : (d : Nat) → SeamGeometry d)
    (c : Cubemap α) : Seamless geom (makeSeamless geom c) := by
  intro f i j hi hj hb h3
  have hint := (geom c.dim).nbr_interior f i j hi hj hb h3
  have hnb := isInterior_not_border c.dim _ _ hint
  have hb2 : isBorder c.dim i j = true := hb
  show (makeSeamless geom c).texel f i j = _
  unfold makeSeamless
  dsimp only
  rw [if_pos hb2, if_neg (by simp [hnb])]

/-- C6: makeSeamless rewrites only the one-texel border ring; every
non-border texel of every face holds the same value after the call as
before it. -/
theorem makeSeamless_frame {α : Type} (geom : (d : Nat) → SeamGeometry d)
    (c : Cubemap α) (f : Fin 6) (i j : Nat) (hi : i < c.dim) (hj : j < c.dim)
    (hb : isBorder c.dim i j = false) :
    (makeSeamless geom c).texel f i j = c.texel f i j := by
  unfold makeSeamless
  dsimp only
  rw [if_neg (by simp [hb])]

/-- Witness for C6 on a 4-dimension constant cubemap at the interior
texel (1, 1). -/
theorem makeSeamless_frame_witness :
    (makeSeamless sampleGeom (constCubemap Nat 4 7)).texel 0 1 1 =
      (constCubemap Nat 4 7).texel 0 1 1 :=
  makeSeamless_frame sampleGeom (constCubemap Nat 4 7) 0 1 1
    (by decide) (by decide) (by decide)

/-! ## Mip chain and driver pipeline -/

/-- Modelled from the spec: one generateMipmaps downsampling step writes a
cubemap of half the dimension whose texel contents are produced by the
box filter from the previous level (spec 4.3); the filter function is a
parameter, since the claims depend only on the dimensions and on the seam
discipline. -/
def downsampleWith {α : Type} (fd : Cubemap α → Fin 6 → Nat → Nat → α)
    (c : Cubemap α) : Cubemap α :=
  { dim := c.dim / 2, texel := fd c }

/-- Modelled from the spec: generateMipmaps repeatedly halves the
dimension, reapplying makeSeamless after each level is written, until the
dimension reaches 1 (spec 4.3).  Returns the levels strictly below the
base level. -/
def mipChainBelow {α : Type} (geom : (d : Nat) → SeamGeometry d)
    (fd : Cubemap α → Fin 6 → Nat → Nat → α) (c : Cubemap α) : List (Cubemap α) :=
  if c.dim ≤ 1 then []
  else
    let nxt := makeSeamless geom (downsampleWith fd c)
    nxt :: mipChainBelow geom fd nxt
termination_by c.dim
decreasing_by
  show (makeSeamless geom (downsampleWith fd c)).dim < c.dim
  show c.dim / 2 < c.dim
  omega

/-- generateMipmaps (main.cpp line 414): the base level already pushed by
the driver followed by the generated chain. -/
def generateMipmaps {α : Type} (geom : (d : Nat) → SeamGeometry d)
    (fd : Cubemap α → Fin 6 → Nat → Nat → α) (base : Cubemap α) :
    List (Cubemap α) :=
  base :: mipChainBelow geom fd base

/-- Driver pipeline of main.cpp lines 326-436: the base cubemap is filled
by a content-writing operation (cross copy, equirectangular projection or
procedural generation, abstracted as the already-written cubemap) and
sealed by makeSeamless (lines 365, 377, 408); generateMipmaps extends it
to the full chain (line 414); with --mirror every level is rewritten by
the mirror writer fm and makeSeamless is reapplied (lines 424-432).  The
result is the levels vector consumed by SH projection (line 442), the
prefilter passes (lines 450 and 457) and face extraction (lines
461-479). -/
def pipelineLevels {α : Type} (geom : (d : Nat) → SeamGeometry d)
    (fd fm : Cubemap α → Fin 6 → Nat → Nat → α) (mirror : Bool)
    (written : Cubemap α) : List (Cubemap α) :=
  let levels := generateMipmaps geom fd (makeSeamless geom written)
  if mirror then
    levels.map fun l => makeSeamless geom { dim := l.dim, texel := fm l }
  else levels

theorem mipChainBelow_mem {α : Type} (geom : (d : Nat) → SeamGeometry d)
    (fd : Cubemap α → Fin 6 → Nat → Nat → α) :
    ∀ (n : Nat) (c : Cubemap α), c.dim ≤ n →
      ∀ x ∈ mipChainBelow geom fd c, ∃ y, x = makeSeamless geom y := by
  intro n
  induction n with
  | zero =>
      intro c hc x hx
      rw [mipChainBelow, if_pos (by omega)] at hx
      exact absurd hx (by simp)
  | succ m ih =>
      intro c hc x hx
      rw [mipChainBelow] at hx
      by_cases h1 : c.dim ≤ 1
      · rw [if_pos h1] at hx
        exact absurd hx (by simp)
      · rw [if_neg h1] at hx
        rcases List.mem_cons.mp hx with heq | hx2
        · exact ⟨downsampleWith fd c, heq⟩
        · exact ih (makeSeamless geom (downsampleWith fd c))
            (by show c.dim / 2 ≤ m; omega) x hx2

/-- C1: every cubemap in the levels vector that the driver hands to SH
projection, the prefilter passes and face extraction has had makeSeamless
applied after its last content write, so it satisfies the seam invariant:
each border texel equals the corresponding interior-adjacent texel of the
neighbouring face, exactly.  This holds for every base writer (cross
copy, equirectangular projection, procedural generation), every
downsampling filter, every mirror writer, and both mirror settings. -/
theorem pipeline_seamless {α : Type} (geom : (d : Nat) → SeamGeometry d)
    (fd fm : Cubemap α → Fin 6 → Nat → Nat → α) (mirror : Bool)
    (written : Cubemap α) :
    ∀ c ∈ pipelineLevels geom fd fm mirror written, Seamless geom c := by
  intro c hc
  unfold pipelineLevels at hc
  dsimp only at hc
  have hbase : ∀ x ∈ generateMipmaps geom fd (makeSeamless geom written),
      ∃ y, x = makeSeamless geom y := by
    intro x hx
    rcases List.mem_cons.mp hx with heq | hx2
    · exact ⟨written, heq⟩
    · exact mipChainBelow_mem geom fd _ _ le_rfl x hx2
  cases mirror with
  | false =>
      rw [if_neg (by simp)] at hc
      obtain ⟨y, rfl⟩ := hbase c hc
      exact makeSeamless_seamless geom y
  | true =>
      rw [if_pos rfl] at hc
      obtain ⟨l, _, rfl⟩ := List.mem_map.mp hc
      exact makeSeamless_seamless geom _

/-- Witness for C1: the base level of the concrete unmirrored pipeline on
a 4-dimension constant cubemap is seamless. -/
theorem pipeline_seamless_witness :
    Seamless sampleGeom (makeSeamless sampleGeom (constCubemap Nat 4 7)) :=
  pipeline_seamless sampleGeom (fun _ _ _ _ => 0) (fun _ _ _ _ => 0) false
    (constCubemap Nat 4 7) (makeSeamless sampleGeom (constCubemap Nat 4 7))
    (show _ ∈ (makeSeamless sampleGeom (constCubemap Nat 4 7)) ::
        mipChainBelow sampleGeom (fun _ _ _ _ => 0)
          (makeSeamless sampleGeom (constCubemap Nat 4 7))
      from List.mem_cons_self _ _)

theorem mipChainBelow_shape {α : Type} (geom : (d : Nat) → SeamGeometry d)
    (fd : Cubemap α → Fin 6 → Nat → Nat → α) :
    ∀ (n : Nat) (c : Cubemap α), c.dim = 2 ^ n →
      (mipChainBelow geom fd c).length = n ∧
      ∀ k (hk : k < (mipChainBelow geom fd c).length),
        ((mipChainBelow geom fd c).get ⟨k, hk⟩).dim = 2 ^ n / 2 ^ (k + 1) := by
  intro n
  induction n with
  | zero =>
      intro c hc
      rw [mipChainBelow, if_pos (by omega)]
      exact ⟨rfl, fun k hk => absurd hk (by simp)⟩
  | succ m ih =>
      intro c hc
      have h1 : ¬ c.dim ≤ 1 := by
        rw [hc]
        have : m + 1 < 2 ^ (m + 1) := Nat.lt_two_pow (m + 1)
        omega
      have hnxt : (makeSeamless geom (downsampleWith fd c)).dim = 2 ^ m := by
        show c.dim / 2 = 2 ^ m
        rw [hc, pow_succ]
        omega
      obtain ⟨ihl, ihg⟩ := ih (makeSeamless geom (downsampleWith fd c)) hnxt
      rw [mipChainBelow, if_neg h1]
      dsimp only
      constructor
      · simp [ihl]
      · intro k hk
        cases k with
        | zero =>
            show (makeSeamless geom (downsampleWith fd c)).dim = 2 ^ (m + 1) / 2 ^ 1
            rw [hnxt, pow_succ, pow_one]
            omega
        | succ k2 =>
            have hk2 : k2 < (mipChainBelow geom fd
                (makeSeamless geom (downsampleWith fd c))).length := by
              simp at hk
              omega
            have := ihg k2 hk2
            show ((mipChainBelow geom fd
                (makeSeamless geom (downsampleWith fd c))).get ⟨k2, hk2⟩).dim =
              2 ^ (m + 1) / 2 ^ (k2 + 2)
            rw [this]
            rw [show (2:Nat) ^ (m + 1) = 2 * 2 ^ m from by ring,
              show (2:Nat) ^ (k2 + 2) = 2 * 2 ^ (k2 + 1) from by ring]
            exact (Nat.mul_div_mul_left _ _ (by omega)).symm

/-- C2: for a base cubemap of dimension D = 2 ^ n, generateMipmaps
produces a chain of exactly n + 1 = log2 D + 1 levels, level k having
dimension D / 2 ^ k, with the last level always of dimension 1. -/
theorem generateMipmaps_shape {α : Type} (geom : (d : Nat) → SeamGeometry d)
    (fd : Cubemap α → Fin 6 → Nat → Nat → α) (base : Cubemap α) (n : Nat)
    (hD : base.dim = 2 ^ n) :
    (generateMipmaps geom fd base).length = n + 1 ∧
    (∀ k (hk : k < (generateMipmaps geom fd base).length),
      ((generateMipmaps geom fd base).get ⟨k, hk⟩).dim = 2 ^ n / 2 ^ k) ∧
    ((generateMipmaps geom fd base).getLast (by simp [generateMipmaps])).dim = 1 := by
  obtain ⟨hl, hg⟩ := mipChainBelow_shape geom fd n base hD
  have hlen : (generateMipmaps geom fd base).length = n + 1 := by
    simp [generateMipmaps, hl]
  have hget : ∀ k (hk : k < (generateMipmaps geom fd base).length),
      ((generateMipmaps geom fd base).get ⟨k, hk⟩).dim = 2 ^ n / 2 ^ k := by
    intro k hk
    cases k with
    | zero =>
        show base.dim = 2 ^ n / 2 ^ 0
        rw [hD]
        simp
    | succ k2 =>
        have hk2 : k2 < (mipChainBelow geom fd base).length := by
          rw [hlen] at hk
          rw [hl]
          omega
        exact hg k2 hk2
  refine ⟨hlen, hget, ?_⟩
  have hne : generateMipmaps geom fd base ≠ [] := by simp [generateMipmaps]
  rw [List.getLast_eq_get _ hne]
  have hk : (generateMipmaps geom fd base).length - 1 <
      (generateMipmaps geom fd base).length := by
    rw [hlen]
    omega
  rw [hget _ hk]
  rw [hlen]
  simp [Nat.pow_div]

/-- Witness for C2 on a dimension-4 base cubemap. -/
theorem generateMipmaps_shape_witness :
    (generateMipmaps sampleGeom (fun _ _ _ _ => 0) (constCubemap Nat 4 7)).length =
      2 + 1 :=
  (generateMipmaps_shape sampleGeom (fun _ _ _ _ => 0) (constCubemap Nat 4 7) 2
    (by norm_num [constCubemap])).1

/-! ## Direction mapping and spherical harmonics model

Modelled from the spec: the Cubemap direction mapping, the per-texel
solid angle and the sphericalHarmonics projection (spec 3 and 4.4) are
not among the visible sources.  The model is stated over an arbitrary
linear ordered field so that the definitions stay executable; the
square-root function entering the normalisation is a parameter, which the
witnesses instantiate with Real.sqrt over the reals. -/

structure Vec3 (F : Type) where
  x : F
  y : F
  z : F

def Vec3.scale {F : Type} [LinearOrderedField F] (t : F) (p : Vec3 F) : Vec3 F :=
  ⟨t * p.x, t * p.y, t * p.z⟩

def dot {F : Type} [LinearOrderedField F] (a b : Vec3 F) : F :=
  a.x * b.x + a.y * b.y + a.z * b.z

/-- Texel-centre coordinate on a cube face of dimension d:
u = (2 i + 1) / d - 1, ranging over (-1, 1). -/
def texCoord (F : Type) [LinearOrderedField F] (d i : Nat) : F :=
  (2 * (i : F) + 1) / (d : F) - 1

/-- Modelled from the spec: the fixed per-face basis mapping a face and a
texel to its (unnormalised) 3D direction (spec 3), the standard cubemap
face bases in the order +X, -X, +Y, -Y, +Z, -Z. -/
def faceDir (F : Type) [LinearOrderedField F] (d : Nat) (f : Fin 6) (i j : Nat) :
    Vec3 F :=
  let u := texCoord F d i
  let v := texCoord F d j
  match f with
  | ⟨0, _⟩ => ⟨1, -v, -u⟩
  | ⟨1, _⟩ => ⟨-1, -v, u⟩
  | ⟨2, _⟩ => ⟨u, 1, v⟩
  | ⟨3, _⟩ => ⟨u, -1, -v⟩
  | ⟨4, _⟩ => ⟨u, -v, 1⟩
  | ⟨5, _⟩ => ⟨-u, -v, -1⟩
  | ⟨n + 6, h⟩ => absurd h (by omega)

/-- Squared length of the unnormalised direction: 1 + u^2 + v^2. -/
def normSq (F : Type) [LinearOrderedField F] (d i j : Nat) : F :=
  1 + texCoord F d i ^ 2 + texCoord F d j ^ 2

/-- Normalised texel-centre direction; nrm is the square-root function. -/
def dirN (F : Type) [LinearOrderedField F] (nrm : F → F) (d : Nat) (f : Fin 6)
    (i j : Nat) : Vec3 F :=
  Vec3.scale (1 / nrm (normSq F d i j)) (faceDir F d f i j)

/-- Modelled from the spec: the differential solid angle subtended by
texel (i, j) under the direction mapping (spec 4.4), the standard
texel-centre formula 4 / (d^2 (1 + u^2 + v^2)^{3/2}). -/
def solidAngle (F : Type) [LinearOrderedField F] (nrm : F → F) (d i j : Nat) : F :=
  4 / ((d : F) ^ 2 * nrm (normSq F d i j) ^ 3)

/-- Modelled from the spec: the real spherical-harmonics basis functions
up to band 2 in the standard order (band 0; band 1: y, z, x; band 2: xy,
yz, 3z^2-1, xz, x^2-y^2), evaluated on a unit direction; the positive
normalisation constants are abstracted into the parameter K. -/
def shBasis (F : Type) [LinearOrderedField F] (K : Fin 9 → F) (p : Vec3 F) :
    Fin 9 → F :=
  fun l =>
    match l with
    | ⟨0, _⟩ => K 0
    | ⟨1, _⟩ => K 1 * p.y
    | ⟨2, _⟩ => K 2 * p.z
    | ⟨3, _⟩ => K 3 * p.x
    | ⟨4, _⟩ => K 4 * (p.x * p.y)
    | ⟨5, _⟩ => K 5 * (p.y * p.z)
    | ⟨6, _⟩ => K 6 * (3 * p.z ^ 2 - 1)
    | ⟨7, _⟩ => K 7 * (p.x * p.z)
    | ⟨8, _⟩ => K 8 * (p.x ^ 2 - p.y ^ 2)
    | ⟨n + 9, h⟩ => absurd h (by omega)

/-- Modelled from the spec: the sphericalHarmonics projection (spec 4.4):
for each basis function, the sum over every texel of every face of
radiance times basis(direction) times solid angle. -/
def shCoeff (F : Type) [LinearOrderedField F] (nrm : F → F) (K : Fin 9 → F)
    (c : Cubemap F) (l : Fin 9) : F :=
  ∑ f : Fin 6, ∑ i : Fin c.dim, ∑ j : Fin c.dim,
    c.texel f i j * shBasis F K (dirN F nrm c.dim f i.val j.val) l *
      solidAngle F nrm c.dim i.val j.val

/-! ## Roughness prefilter model (CubemapIBL::roughnessFilter) -/

/-- Modelled from the spec: the accumulation of one destination texel of
the GGX importance-sampled roughness filter (spec 4.5): numSamples sample
directions L produced by the GGX sampler, radiance fetched from the mip
level selected from the sample PDF by the lookup, each sample weighted by
NdotL and the total normalised by the weight sum. -/
def importanceSampleTexel (F : Type) [LinearOrderedField F]
    (sampleL : Nat → Vec3 F → Vec3 F) (lookup : Nat → Vec3 F → F)
    (numSamples : Nat) (N : Vec3 F) : F :=
  (((List.range numSamples).map fun s =>
      lookup s (sampleL s N) * dot N (sampleL s N)).sum) /
  (((List.range numSamples).map fun s => dot N (sampleL s N)).sum)

/-- Modelled from the spec: CubemapIBL::roughnessFilter (spec 4.5).  A
linear roughness of zero degenerates to point sampling and must
short-circuit to a direct copy of the level-0 source cubemap; any other
roughness runs the GGX importance-sampling loop on every destination
texel.  The per-texel direction mapping, the roughness-dependent GGX
sampler and the PDF-based mip lookup are parameters of the model. -/
def roughnessFilter (F : Type) [LinearOrderedField F]
    (dirOf : Nat → Fin 6 → Nat → Nat → Vec3 F)
    (sampleL : F → Nat → Vec3 F → Vec3 F)
    (lookup : List (Cubemap F) → F → Nat → Vec3 F → F)
    (levels : List (Cubemap F)) (linearRoughness : F) (numSamples : Nat) :
    Cubemap F :=
  match levels with
  | [] => constCubemap F 0 0
  | l0 :: rest =>
      if linearRoughness = 0 then
        { dim := l0.dim, texel := l0.texel }
      else
        { dim := l0.dim
          texel := fun f i j =>
            importanceSampleTexel F (sampleL linearRoughness)
              (lookup (l0 :: rest) linearRoughness) numSamples
              (dirOf l0.dim f i j) }

/-- C4: the roughness prefilter invoked with linearRoughness = 0 produces
a cubemap equal to a direct copy of the level-0 source cubemap: same
dimension and every texel of every face equal to the corresponding source
texel, with no dependence on the sampler, the mip lookup or the sample
count, instead of running the importance-sampling loop. -/
theorem roughnessFilter_zero (F : Type) [LinearOrderedField F]
    (dirOf : Nat → Fin 6 → Nat → Nat → Vec3 F)
    (sampleL : F → Nat → Vec3 F → Vec3 F)
    (lookup : List (Cubemap F) → F → Nat → Vec3 F → F)
    (l0 : Cubemap F) (rest : List (Cubemap F)) (numSamples : Nat) :
    roughnessFilter F dirOf sampleL lookup (l0 :: rest) 0 numSamples =
      { dim := l0.dim, texel := l0.texel } ∧
    ∀ (f : Fin 6) (i j : Nat),
      (roughnessFilter F dirOf sampleL lookup (l0 :: rest) 0 numSamples).texel f i j =
        l0.texel f i j := by
  have h : roughnessFilter F dirOf sampleL lookup (l0 :: rest) 0 numSamples =
      { dim := l0.dim, texel := l0.texel } := by
    show (if (0:F) = 0 then ({ dim := l0.dim, texel := l0.texel } : Cubemap F)
        else _) = { dim := l0.dim, texel := l0.texel }
    exact if_pos rfl
  exact ⟨h, fun f i j => by rw [h]⟩

/-! ## Symmetries of the cube sampling grid -/

/-- Index reflection i to d - 1 - i on a face row or column. -/
def reflect (d : Nat) (i : Fin d) : Fin d :=
  ⟨d - 1 - i.val, by have := i.isLt; omega⟩

theorem reflect_reflect (d : Nat) (i : Fin d) : reflect d (reflect d i) = i := by
  apply Fin.ext
  show d - 1 - (d - 1 - i.val) = i.val
  have := i.isLt
  omega

theorem texCoord_reflect (F : Type) [LinearOrderedField F] (d : Nat) (i : Fin d) :
    texCoord F d (reflect d i).val = - texCoord F d i.val := by
  have hlt := i.isLt
  have hd : (0:F) < (d : F) := by
    have : 0 < d := by omega
    exact_mod_cast this
  have hcast : ((reflect d i).val : F) = (d : F) - (i.val : F) - 1 := by
    show ((d - 1 - i.val : Nat) : F) = (d : F) - (i.val : F) - 1
    have h1 : (d - 1 - i.val) + (i.val + 1) = d := by omega
    have h2 : ((d - 1 - i.val : Nat) : F) + ((i.val : F) + 1) = (d : F) := by
      exact_mod_cast congrArg (Nat.cast : Nat → F) h1
    linarith
  unfold texCoord
  rw [hcast]
  field_simp
  ring

theorem normSq_pair (F : Type) [LinearOrderedField F] (d : Nat) (i j : Fin d) :
    normSq F d (reflect d i).val j.val = normSq F d i.val j.val ∧
    normSq F d i.val (reflect d j).val = normSq F d i.val j.val ∧
    normSq F d (reflect d i).val (reflect d j).val = normSq F d i.val j.val ∧
    normSq F d j.val i.val = normSq F d i.val j.val := by
  unfold normSq
  rw [texCoord_reflect, texCoord_reflect]
  refine ⟨by ring, by ring, by ring, by ring⟩

theorem normSq_reflect_left (F : Type) [LinearOrderedField F] (d : Nat)
    (i j : Fin d) :
    normSq F d (reflect d i).val j.val = normSq F d i.val j.val :=
  (normSq_pair F d i j).1

theorem normSq_reflect_right (F : Type) [LinearOrderedField F] (d : Nat)
    (i j : Fin d) :
    normSq F d i.val (reflect d j).val = normSq F d i.val j.val :=
  (normSq_pair F d i j).2.1

theorem normSq_swap_args (F : Type) [LinearOrderedField F] (d : Nat)
    (i j : Fin d) :
    normSq F d j.val i.val = normSq F d i.val j.val :=
  (normSq_pair F d i j).2.2.2

theorem normSq_reflectswap (F : Type) [LinearOrderedField F] (d : Nat)
    (i j : Fin d) :
    normSq F d (reflect d j).val (reflect d i).val = normSq F d i.val j.val := by
  rw [(normSq_pair F d j i).2.2.1]
  exact normSq_swap_args F d i j

/-- Direction of the texel at an index triple. -/
def dirAt (F : Type) [LinearOrderedField F] (nrm : F → F) (d : Nat)
    (p : Fin 6 × Fin d × Fin d) : Vec3 F :=
  dirN F nrm d p.1 p.2.1.val p.2.2.val

/-- Solid angle of the texel at an index triple. -/
def saAt (F : Type) [LinearOrderedField F] (nrm : F → F) (d : Nat)
    (p : Fin 6 × Fin d × Fin d) : F :=
  solidAngle F nrm d p.2.1.val p.2.2.val

/-- One summand of the basis-weighted area sum. -/
def shTermP (F : Type) [LinearOrderedField F] (nrm : F → F) (K : Fin 9 → F)
    (d : Nat) (l : Fin 9) (p : Fin 6 × Fin d × Fin d) : F :=
  shBasis F K (dirAt F nrm d p) l * saAt F nrm d p

/-- Basis-weighted area sum over the whole sampling grid. -/
def shWeight (F : Type) [LinearOrderedField F] (nrm : F → F) (K : Fin 9 → F)
    (d : Nat) (l : Fin 9) : F :=
  ∑ p : Fin 6 × Fin d × Fin d, shTermP F nrm K d l p

/-- Antipodal symmetry of the grid: the index triple whose direction is
the negation of the given one. -/
def antipMap (d : Nat) (p : Fin 6 × Fin d × Fin d) : Fin 6 × Fin d × Fin d :=
  match p with
  | (⟨0, _⟩, i, j) => (⟨1, by omega⟩, i, reflect d j)
  | (⟨1, _⟩, i, j) => (⟨0, by omega⟩, i, reflect d j)
  | (⟨2, _⟩, i, j) => (⟨3, by omega⟩, reflect d i, j)
  | (⟨3, _⟩, i, j) => (⟨2, by omega⟩, reflect d i, j)
  | (⟨4, _⟩, i, j) => (⟨5, by omega⟩, i, reflect d j)
  | (⟨5, _⟩, i, j) => (⟨4, by omega⟩, i, reflect d j)
  | (⟨n + 6, h⟩, _, _) => absurd h (by omega)

theorem antipMap_invol (d : Nat) : Function.Involutive (antipMap d) := by
  rintro ⟨f, i, j⟩
  fin_cases f <;> simp [antipMap, reflect_reflect]

theorem saAt_antip (F : Type) [LinearOrderedField F] (nrm : F → F) (d : Nat)
    (p : Fin 6 × Fin d × Fin d) :
    saAt F nrm d (antipMap d p) = saAt F nrm d p := by
  rcases p with ⟨f, i, j⟩
  fin_cases f <;>
    simp [antipMap, saAt, solidAngle, normSq_reflect_left, normSq_reflect_right]

theorem dirAt_antip (F : Type) [LinearOrderedField F] (nrm : F → F) (d : Nat)
    (p : Fin 6 × Fin d × Fin d) :
    dirAt F nrm d (antipMap d p) =
      ⟨-(dirAt F nrm d p).x, -(dirAt F nrm d p).y, -(dirAt F nrm d p).z⟩ := by
  rcases p with ⟨f, i, j⟩
  fin_cases f <;>
    · simp only [antipMap, dirAt]
      unfold dirN faceDir Vec3.scale
      dsimp only
      simp only [normSq_reflect_left, normSq_reflect_right, texCoord_reflect]
      rw [Vec3.mk.injEq]
      refine ⟨by ring, by ring, by ring⟩

/-- Reflection of the grid negating the x coordinate of directions. -/
def negXMap (d : Nat) (p : Fin 6 × Fin d × Fin d) : Fin 6 × Fin d × Fin d :=
  match p with
  | (⟨0, _⟩, i, j) => (⟨1, by omega⟩, reflect d i, j)
  | (⟨1, _⟩, i, j) => (⟨0, by omega⟩, reflect d i, j)
  | (⟨2, _⟩, i, j) => (⟨2, by omega⟩, reflect d i, j)
  | (⟨3, _⟩, i, j) => (⟨3, by omega⟩, reflect d i, j)
  | (⟨4, _⟩, i, j) => (⟨4, by omega⟩, reflect d i, j)
  | (⟨5, _⟩, i, j) => (⟨5, by omega⟩, reflect d i, j)
  | (⟨n + 6, h⟩, _, _) => absurd h (by omega)

theorem negXMap_invol (d : Nat) : Function.Involutive (negXMap d) := by
  rintro ⟨f, i, j⟩
  fin_cases f <;> simp [negXMap, reflect_reflect]

theorem saAt_negX (F : Type) [LinearOrderedField F] (nrm : F → F) (d : Nat)
    (p : Fin 6 × Fin d × Fin d) :
    saAt F nrm d (negXMap d p) = saAt F nrm d p := by
  rcases p with ⟨f, i, j⟩
  fin_cases f <;>
    simp [negXMap, saAt, solidAngle, normSq_reflect_left, normSq_reflect_right]

theorem dirAt_negX (F : Type) [LinearOrderedField F] (nrm : F → F) (d : Nat)
    (p : Fin 6 × Fin d × Fin d) :
    dirAt F nrm d (negXMap d p) =
      ⟨-(dirAt F nrm d p).x, (dirAt F nrm d p).y, (dirAt F nrm d p).z⟩ := by
  rcases p with ⟨f, i, j⟩
  fin_cases f <;>
    · simp only [negXMap, dirAt]
      unfold dirN faceDir Vec3.scale
      dsimp only
      simp only [normSq_reflect_left, normSq_reflect_right, texCoord_reflect]
      rw [Vec3.mk.injEq]
      refine ⟨by ring, by ring, by ring⟩

/-- Reflection of the grid negating the y coordinate of directions. -/
def negYMap (d : Nat) (p : Fin 6 × Fin d × Fin d) : Fin 6 × Fin d × Fin d :=
  match p with
  | (⟨0, _⟩, i, j) => (⟨0, by omega⟩, i, reflect d j)
  | (⟨1, _⟩, i, j) => (⟨1, by omega⟩, i, reflect d j)
  | (⟨2, _⟩, i, j) => (⟨3, by omega⟩, i, reflect d j)
  | (⟨3, _⟩, i, j) => (⟨2, by omega⟩, i, reflect d j)
  | (⟨4, _⟩, i, j) => (⟨4, by omega⟩, i, reflect d j)
  | (⟨5, _⟩, i, j) => (⟨5, by omega⟩, i, reflect d j)
  | (⟨n + 6, h⟩, _, _) => absurd h (by omega)

theorem negYMap_invol (d : Nat) : Function.Involutive (negYMap d) := by
  rintro ⟨f, i, j⟩
  fin_cases f <;> simp [negYMap, reflect_reflect]

theorem saAt_negY (F : Type) [LinearOrderedField F] (nrm : F → F) (d : Nat)
    (p : Fin 6 × Fin d × Fin d) :
    saAt F nrm d (negYMap d p) = saAt F nrm d p := by
  rcases p with ⟨f, i, j⟩
  fin_cases f <;>
    simp [negYMap, saAt, solidAngle, normSq_reflect_left, normSq_reflect_right]

theorem dirAt_negY (F : Type) [LinearOrderedField F] (nrm : F → F) (d : Nat)
    (p : Fin 6 × Fin d × Fin d) :
    dirAt F nrm d (negYMap d p) =
      ⟨(dirAt F nrm d p).x, -(dirAt F nrm d p).y, (dirAt F nrm d p).z⟩ := by
  rcases p with ⟨f, i, j⟩
  fin_cases f <;>
    · simp only [negYMap, dirAt]
      unfold dirN faceDir Vec3.scale
      dsimp only
      simp only [normSq_reflect_left, normSq_reflect_right, texCoord_reflect]
      rw [Vec3.mk.injEq]
      refine ⟨by ring, by ring, by ring⟩

/-- Rotation of the grid exchanging the x and y coordinates of
directions. -/
def swapXYMap (d : Nat) (p : Fin 6 × Fin d × Fin d) : Fin 6 × Fin d × Fin d :=
  match p with
  | (⟨0, _⟩, i, j) => (⟨2, by omega⟩, reflect d j, reflect d i)
  | (⟨1, _⟩, i, j) => (⟨3, by omega⟩, reflect d j, reflect d i)
  | (⟨2, _⟩, i, j) => (⟨0, by omega⟩, reflect d j, reflect d i)
  | (⟨3, _⟩, i, j) => (⟨1, by omega⟩, reflect d j, reflect d i)
  | (⟨4, _⟩, i, j) => (⟨4, by omega⟩, reflect d j, reflect d i)
  | (⟨5, _⟩, i, j) => (⟨5, by omega⟩, j, i)
  | (⟨n + 6, h⟩, _, _) => absurd h (by omega)

theorem swapXYMap_invol (d : Nat) : Function.Involutive (swapXYMap d) := by
  rintro ⟨f, i, j⟩
  fin_cases f <;> simp [swapXYMap, reflect_reflect]

theorem saAt_swapXY (F : Type) [LinearOrderedField F] (nrm : F → F) (d : Nat)
    (p : Fin 6 × Fin d × Fin d) :
    saAt F nrm d (swapXYMap d p) = saAt F nrm d p := by
  rcases p with ⟨f, i, j⟩
  fin_cases f <;>
    simp only [swapXYMap, saAt, solidAngle, normSq_reflectswap, normSq_swap_args]

theorem dirAt_swapXY (F : Type) [LinearOrderedField F] (nrm : F → F) (d : Nat)
    (p : Fin 6 × Fin d × Fin d) :
    dirAt F nrm d (swapXYMap d p) =
      ⟨(dirAt F nrm d p).y, (dirAt F nrm d p).x, (dirAt F nrm d p).z⟩ := by
  rcases p with ⟨f, i, j⟩
  fin_cases f <;>
    · simp only [swapXYMap, dirAt]
      unfold dirN faceDir Vec3.scale
      dsimp only
      simp only [normSq_reflectswap, normSq_swap_args, texCoord_reflect]
      try rw [Vec3.mk.injEq]
      try refine ⟨by ring, by ring, by ring⟩

/-- Rotation of the grid exchanging the y and z coordinates of
directions. -/
def swapYZMap (d : Nat) (p : Fin 6 × Fin d × Fin d) : Fin 6 × Fin d × Fin d :=
  match p with
  | (⟨0, _⟩, i, j) => (⟨0, by omega⟩, j, i)
  | (⟨1, _⟩, i, j) => (⟨1, by omega⟩, reflect d j, reflect d i)
  | (⟨2, _⟩, i, j) => (⟨4, by omega⟩, i, reflect d j)
  | (⟨3, _⟩, i, j) => (⟨5, by omega⟩, reflect d i, j)
  | (⟨4, _⟩, i, j) => (⟨2, by omega⟩, i, reflect d j)
  | (⟨5, _⟩, i, j) => (⟨3, by omega⟩, reflect d i, j)
  | (⟨n + 6, h⟩, _, _) => absurd h (by omega)

theorem swapYZMap_invol (d : Nat) : Function.Involutive (swapYZMap d) := by
  rintro ⟨f, i, j⟩
  fin_cases f <;> simp [swapYZMap, reflect_reflect]

theorem saAt_swapYZ (F : Type) [LinearOrderedField F] (nrm : F → F) (d : Nat)
    (p : Fin 6 × Fin d × Fin d) :
    saAt F nrm d (swapYZMap d p) = saAt F nrm d p := by
  rcases p with ⟨f, i, j⟩
  fin_cases f <;>
    simp only [swapYZMap, saAt, solidAngle, normSq_reflectswap, normSq_swap_args,
      normSq_reflect_left, normSq_reflect_right]

theorem dirAt_swapYZ (F : Type) [LinearOrderedField F] (nrm : F → F) (d : Nat)
    (p : Fin 6 × Fin d × Fin d) :
    dirAt F nrm d (swapYZMap d p) =
      ⟨(dirAt F nrm d p).x, (dirAt F nrm d p).z, (dirAt F nrm d p).y⟩ := by
  rcases p with ⟨f, i, j⟩
  fin_cases f <;>
    · simp only [swapYZMap, dirAt]
      unfold dirN faceDir Vec3.scale
      dsimp only
      simp only [normSq_reflectswap, normSq_swap_args, normSq_reflect_left,
        normSq_reflect_right, texCoord_reflect]
      try rw [Vec3.mk.injEq]
      try refine ⟨by ring, by ring, by ring⟩

theorem sum_involution_neg (F : Type) [LinearOrderedField F] {I : Type}
    [Fintype I] (g : I → F) (m : I → I) (hm : Function.Involutive m)
    (hneg : ∀ p, g (m p) = - g p) : ∑ p : I, g p = 0 := by
  have h1 : ∑ p : I, g (m p) = ∑ p : I, g p := Equiv.sum_comp hm.toPerm g
  have h2 : ∑ p : I, g (m p) = - ∑ p : I, g p := by
    rw [← Finset.sum_neg_distrib]
    exact Finset.sum_congr rfl fun p _ => hneg p
  linarith

theorem sum_involution_comp (F : Type) [LinearOrderedField F] {I : Type}
    [Fintype I] (g h : I → F) (m : I → I) (hm : Function.Involutive m)
    (heq : ∀ p, g (m p) = h p) : ∑ p : I, g p = ∑ p : I, h p := by
  have h1 : ∑ p : I, g (m p) = ∑ p : I, g p := Equiv.sum_comp hm.toPerm g
  rw [← h1]
  exact Finset.sum_congr rfl fun p _ => heq p

theorem faceDir_normSq (F : Type) [LinearOrderedField F] (d : Nat) (f : Fin 6)
    (i j : Nat) :
    (faceDir F d f i j).x ^ 2 + (faceDir F d f i j).y ^ 2 +
      (faceDir F d f i j).z ^ 2 = normSq F d i j := by
  fin_cases f <;>
    · unfold faceDir normSq
      dsimp only
      ring

theorem normSq_ge_one (F : Type) [LinearOrderedField F] (d i j : Nat) :
    (1:F) ≤ normSq F d i j := by
  unfold normSq
  have h1 := sq_nonneg (texCoord F d i)
  have h2 := sq_nonneg (texCoord F d j)
  linarith

theorem dirAt_unit (F : Type) [LinearOrderedField F] (nrm : F → F)
    (hnrm : ∀ s : F, 1 ≤ s → 0 < nrm s ∧ nrm s ^ 2 = s) (d : Nat)
    (p : Fin 6 × Fin d × Fin d) :
    (dirAt F nrm d p).x ^ 2 + (dirAt F nrm d p).y ^ 2 +
      (dirAt F nrm d p).z ^ 2 = 1 := by
  rcases p with ⟨f, i, j⟩
  have hs1 : (1:F) ≤ normSq F d i.val j.val := normSq_ge_one F d i.val j.val
  have hs0 : normSq F d i.val j.val ≠ 0 := by linarith
  obtain ⟨hpos, hsq⟩ := hnrm _ hs1
  have hfd := faceDir_normSq F d f i.val j.val
  unfold dirAt dirN Vec3.scale
  dsimp only
  rw [show ∀ a b c t : F, (t * a) ^ 2 + (t * b) ^ 2 + (t * c) ^ 2 =
      t ^ 2 * (a ^ 2 + b ^ 2 + c ^ 2) from fun a b c t => by ring]
  rw [hfd, div_pow, one_pow, hsq]
  field_simp

theorem saAt_pos (F : Type) [LinearOrderedField F] (nrm : F → F)
    (hnrm : ∀ s : F, 1 ≤ s → 0 < nrm s ∧ nrm s ^ 2 = s) (d : Nat)
    (p : Fin 6 × Fin d × Fin d) : 0 < saAt F nrm d p := by
  rcases p with ⟨f, i, j⟩
  have hd : 0 < d := lt_of_le_of_lt (Nat.zero_le _) i.isLt
  have hdF : (0:F) < (d : F) ^ 2 := by
    have : (0:F) < (d : F) := by exact_mod_cast hd
    positivity
  obtain ⟨hpos, _⟩ := hnrm _ (normSq_ge_one F d i.val j.val)
  unfold saAt solidAngle
  apply div_pos (by norm_num)
  exact mul_pos hdF (pow_pos hpos 3)

theorem totalSolidAngle_pos (F : Type) [LinearOrderedField F] (nrm : F → F)
    (hnrm : ∀ s : F, 1 ≤ s → 0 < nrm s ∧ nrm s ^ 2 = s) (d : Nat) (hd : 0 < d) :
    0 < ∑ p : Fin 6 × Fin d × Fin d, saAt F nrm d p := by
  have : Nonempty (Fin 6 × Fin d × Fin d) := ⟨(0, ⟨0, hd⟩, ⟨0, hd⟩)⟩
  exact Finset.sum_pos (fun p _ => saAt_pos F nrm hnrm d p) Finset.univ_nonempty

/-- Area-weighted second moment of one direction component over the
grid. -/
def quadI (F : Type) [LinearOrderedField F] (nrm : F → F) (d : Nat)
    (sel : Vec3 F → F) : F :=
  ∑ p : Fin 6 × Fin d × Fin d, sel (dirAt F nrm d p) ^ 2 * saAt F nrm d p

theorem quad_x_eq_y (F : Type) [LinearOrderedField F] (nrm : F → F) (d : Nat) :
    quadI F nrm d Vec3.x = quadI F nrm d Vec3.y := by
  unfold quadI
  apply sum_involution_comp F _ _ (swapXYMap d) (swapXYMap_invol d)
  intro p
  rw [dirAt_swapXY, saAt_swapXY]

theorem quad_y_eq_z (F : Type) [LinearOrderedField F] (nrm : F → F) (d : Nat) :
    quadI F nrm d Vec3.y = quadI F nrm d Vec3.z := by
  unfold quadI
  apply sum_involution_comp F _ _ (swapYZMap d) (swapYZMap_invol d)
  intro p
  rw [dirAt_swapYZ, saAt_swapYZ]

theorem quad_total (F : Type) [LinearOrderedField F] (nrm : F → F)
    (hnrm : ∀ s : F, 1 ≤ s → 0 < nrm s ∧ nrm s ^ 2 = s) (d : Nat) :
    quadI F nrm d Vec3.x + quadI F nrm d Vec3.y + quadI F nrm d Vec3.z =
      ∑ p : Fin 6 × Fin d × Fin d, saAt F nrm d p := by
  unfold quadI
  rw [← Finset.sum_add_distrib, ← Finset.sum_add_distrib]
  apply Finset.sum_congr rfl
  intro p _
  have h := dirAt_unit F nrm hnrm d p
  linear_combination saAt F nrm d p * h

theorem quad_z_triple (F : Type) [LinearOrderedField F] (nrm : F → F)
    (hnrm : ∀ s : F, 1 ≤ s → 0 < nrm s ∧ nrm s ^ 2 = s) (d : Nat) :
    3 * quadI F nrm d Vec3.z = ∑ p : Fin 6 × Fin d × Fin d, saAt F nrm d p := by
  have h1 := quad_x_eq_y F nrm d
  have h2 := quad_y_eq_z F nrm d
  have h3 := quad_total F nrm hnrm d
  linarith

theorem shWeight_band0 (F : Type) [LinearOrderedField F] (nrm : F → F)
    (K : Fin 9 → F) (d : Nat) :
    shWeight F nrm K d 0 = K 0 * ∑ p : Fin 6 × Fin d × Fin d, saAt F nrm d p := by
  unfold shWeight
  rw [Finset.mul_sum]
  apply Finset.sum_congr rfl
  intro p _
  show shBasis F K (dirAt F nrm d p) 0 * saAt F nrm d p = K 0 * saAt F nrm d p
  rfl

theorem shWeight_higher_zero (F : Type) [LinearOrderedField F] (nrm : F → F)
    (hnrm : ∀ s : F, 1 ≤ s → 0 < nrm s ∧ nrm s ^ 2 = s) (K : Fin 9 → F)
    (d : Nat) : ∀ l : Fin 8, shWeight F nrm K d l.succ = 0 := by
  intro l
  fin_cases l
  · -- band 1, y component: odd under the antipodal map
    apply sum_involution_neg F _ (antipMap d) (antipMap_invol d)
    intro p
    unfold shTermP
    rw [dirAt_antip, saAt_antip]
    show K 1 * -(dirAt F nrm d p).y * saAt F nrm d p =
      -(K 1 * (dirAt F nrm d p).y * saAt F nrm d p)
    ring
  · -- band 1, z component
    apply sum_involution_neg F _ (antipMap d) (antipMap_invol d)
    intro p
    unfold shTermP
    rw [dirAt_antip, saAt_antip]
    show K 2 * -(dirAt F nrm d p).z * saAt F nrm d p =
      -(K 2 * (dirAt F nrm d p).z * saAt F nrm d p)
    ring
  · -- band 1, x component
    apply sum_involution_neg F _ (antipMap d) (antipMap_invol d)
    intro p
    unfold shTermP
    rw [dirAt_antip, saAt_antip]
    show K 3 * -(dirAt F nrm d p).x * saAt F nrm d p =
      -(K 3 * (dirAt F nrm d p).x * saAt F nrm d p)
    ring
  · -- band 2, xy: odd under the x reflection
    apply sum_involution_neg F _ (negXMap d) (negXMap_invol d)
    intro p
    unfold shTermP
    rw [dirAt_negX, saAt_negX]
    show K 4 * (-(dirAt F nrm d p).x * (dirAt F nrm d p).y) * saAt F nrm d p =
      -(K 4 * ((dirAt F nrm d p).x * (dirAt F nrm d p).y) * saAt F nrm d p)
    ring
  · -- band 2, yz: odd under the y reflection
    apply sum_involution_neg F _ (negYMap d) (negYMap_invol d)
    intro p
    unfold shTermP
    rw [dirAt_negY, saAt_negY]
    show K 5 * (-(dirAt F nrm d p).y * (dirAt F nrm d p).z) * saAt F nrm d p =
      -(K 5 * ((dirAt F nrm d p).y * (dirAt F nrm d p).z) * saAt F nrm d p)
    ring
  · -- band 2, 3z^2 - 1: vanishes because the three second moments are
    -- equal and sum to the total solid angle
    show shWeight F nrm K d 6 = 0
    have hq := quad_z_triple F nrm hnrm d
    have hexp : shWeight F nrm K d 6 =
        K 6 * (3 * quadI F nrm d Vec3.z -
          ∑ p : Fin 6 × Fin d × Fin d, saAt F nrm d p) := by
      unfold shWeight quadI
      have hpt : ∀ p : Fin 6 × Fin d × Fin d, shTermP F nrm K d 6 p =
          K 6 * 3 * ((dirAt F nrm d p).z ^ 2 * saAt F nrm d p) -
            K 6 * saAt F nrm d p := by
        intro p
        unfold shTermP
        show K 6 * (3 * (dirAt F nrm d p).z ^ 2 - 1) * saAt F nrm d p = _
        ring
      rw [Finset.sum_congr rfl fun p _ => hpt p]
      rw [Finset.sum_sub_distrib]
      rw [← Finset.mul_sum, ← Finset.mul_sum]
      ring
    rw [hexp, ← hq]
    ring
  · -- band 2, xz: odd under the x reflection
    apply sum_involution_neg F _ (negXMap d) (negXMap_invol d)
    intro p
    unfold shTermP
    rw [dirAt_negX, saAt_negX]
    show K 7 * (-(dirAt F nrm d p).x * (dirAt F nrm d p).z) * saAt F nrm d p =
      -(K 7 * ((dirAt F nrm d p).x * (dirAt F nrm d p).z) * saAt F nrm d p)
    ring
  · -- band 2, x^2 - y^2: odd under the x-y exchange
    apply sum_involution_neg F _ (swapXYMap d) (swapXYMap_invol d)
    intro p
    unfold shTermP
    rw [dirAt_swapXY, saAt_swapXY]
    show K 8 * ((dirAt F nrm d p).y ^ 2 - (dirAt F nrm d p).x ^ 2) * saAt F nrm d p =
      -(K 8 * ((dirAt F nrm d p).x ^ 2 - (dirAt F nrm d p).y ^ 2) * saAt F nrm d p)
    ring

theorem shCoeff_const_eq (F : Type) [LinearOrderedField F] (nrm : F → F)
    (K : Fin 9 → F) (d : Nat) (v : F) (l : Fin 9) :
    shCoeff F nrm K (constCubemap F d v) l = v * shWeight F nrm K d l := by
  unfold shCoeff shWeight
  rw [Finset.mul_sum, Fintype.sum_prod_type]
  apply Finset.sum_congr rfl
  intro f _
  rw [Fintype.sum_prod_type]
  apply Finset.sum_congr rfl
  intro i _
  apply Finset.sum_congr rfl
  intro j _
  show v * shBasis F K (dirN F nrm d f i.val j.val) l * solidAngle F nrm d i.val j.val =
    v * shTermP F nrm K d l (f, i, j)
  unfold shTermP dirAt saAt
  ring

/-- C3: projecting a uniform cubemap of constant value v onto the SH
basis yields a band-0 coefficient proportional to v, with a positive
constant of proportionality (the band-0 basis constant times the total
grid solid angle), and every higher-band coefficient (all of bands 1 and
2) exactly zero.  Stated over any linear ordered field, for any
square-root function nrm, any positive band-0 basis constant and any
positive dimension. -/
theorem sphericalHarmonics_constant (F : Type) [LinearOrderedField F]
    (nrm : F → F) (hnrm : ∀ s : F, 1 ≤ s → 0 < nrm s ∧ nrm s ^ 2 = s)
    (K : Fin 9 → F) (hK : 0 < K 0) (d : Nat) (hd : 0 < d) (v : F) :
    (shCoeff F nrm K (constCubemap F d v) 0 =
        (K 0 * ∑ p : Fin 6 × Fin d × Fin d, saAt F nrm d p) * v ∧
      0 < K 0 * ∑ p : Fin 6 × Fin d × Fin d, saAt F nrm d p) ∧
    ∀ l : Fin 8, shCoeff F nrm K (constCubemap F d v) l.succ = 0 := by
  refine ⟨⟨?_, ?_⟩, ?_⟩
  · rw [shCoeff_const_eq, shWeight_band0]
    ring
  · exact mul_pos hK (totalSolidAngle_pos F nrm hnrm d hd)
  · intro l
    rw [shCoeff_const_eq, shWeight_higher_zero F nrm hnrm K d l, mul_zero]

/-- Witness for C3 over the reals with nrm = Real.sqrt, unit basis
constants, dimension 1 and constant value 1: positive band-0 scale and a
vanishing band-1 coefficient. -/
theorem sphericalHarmonics_constant_witness :
    0 < (fun _ : Fin 9 => (1:ℝ)) 0 *
        ∑ p : Fin 6 × Fin 1 × Fin 1, saAt ℝ Real.sqrt 1 p ∧
    shCoeff ℝ Real.sqrt (fun _ => 1) (constCubemap ℝ 1 1) (Fin.succ 0) = 0 := by
  have h := sphericalHarmonics_constant ℝ Real.sqrt
    (fun s hs => ⟨Real.sqrt_pos.mpr (by linarith), Real.sq_sqrt (by linarith)⟩)
    (fun _ => 1) one_pos 1 one_pos 1
  exact ⟨h.1.2, h.2 0⟩
